import Mathlib

/-!
Verification of the PDF chatbot backend's ingestion/retrieval pipeline.

The development shallowly embeds the core of the repository:
identity derivation (`derivePointId`, `deriveMetadataId`, backed by a
full executable MD5), the chunker, the ingestion orchestrator
(`processDocument`), the retrieval search paths (`searchPrimary`,
`searchFallback`, `generateResponse`), the lifecycle sweeper
(`cleanupVectorDb`), the duplicate resolver (`checkDuplicateFile`) and
explicit deletion (`deleteDocument`).  Collections of the vector store
are modelled as lists of points; external collaborators (embedding
provider, generation model, the store's network transport, SHA-256) are
modelled as explicit function / `Except` parameters.
-/

set_option maxRecDepth 4000

/-! ## MD5 (`crypto.createHash('md5')`), executable over byte lists -/

/-- 2^32, the modulus of all MD5 register arithmetic. -/
def m32 : Nat := 4294967296

/-- Rotate a 32-bit value left by `n` bits. -/
def rotl (x n : Nat) : Nat := ((x <<< n) % m32) ||| (x >>> (32 - n))

/-- The 64 MD5 round constants `K[i] = floor(2^32 * abs(sin(i+1)))`. -/
def md5K : List Nat :=
  [0xd76aa478, 0xe8c7b756, 0x242070db, 0xc1bdceee,
   0xf57c0faf, 0x4787c62a, 0xa8304613, 0xfd469501,
   0x698098d8, 0x8b44f7af, 0xffff5bb1, 0x895cd7be,
   0x6b901122, 0xfd987193, 0xa679438e, 0x49b40821,
   0xf61e2562, 0xc040b340, 0x265e5a51, 0xe9b6c7aa,
   0xd62f105d, 0x02441453, 0xd8a1e681, 0xe7d3fbc8,
   0x21e1cde6, 0xc33707d6, 0xf4d50d87, 0x455a14ed,
   0xa9e3e905, 0xfcefa3f8, 0x676f02d9, 0x8d2a4c8a,
   0xfffa3942, 0x8771f681, 0x6d9d6122, 0xfde5380c,
   0xa4beea44, 0x4bdecfa9, 0xf6bb4b60, 0xbebfbc70,
   0x289b7ec6, 0xeaa127fa, 0xd4ef3085, 0x04881d05,
   0xd9d4d039, 0xe6db99e5, 0x1fa27cf8, 0xc4ac5665,
   0xf4292244, 0x432aff97, 0xab9423a7, 0xfc93a039,
   0x655b59c3, 0x8f0ccc92, 0xffeff47d, 0x85845dd1,
   0x6fa87e4f, 0xfe2ce6e0, 0xa3014314, 0x4e0811a1,
   0xf7537e82, 0xbd3af235, 0x2ad7d2bb, 0xeb86d391]

/-- The per-round left-rotation amounts of MD5. -/
def md5S : List Nat :=
  [7, 12, 17, 22, 7, 12, 17, 22, 7, 12, 17, 22, 7, 12, 17, 22,
   5, 9, 14, 20, 5, 9, 14, 20, 5, 9, 14, 20, 5, 9, 14, 20,
   4, 11, 16, 23, 4, 11, 16, 23, 4, 11, 16, 23, 4, 11, 16, 23,
   6, 10, 15, 21, 6, 10, 15, 21, 6, 10, 15, 21, 6, 10, 15, 21]

/-- The MD5 nonlinear mixing function of round `i`. -/
def md5F (i b c d : Nat) : Nat :=
  if i < 16 then (b &&& c) ||| ((b ^^^ 4294967295) &&& d)
  else if i < 32 then (d &&& b) ||| ((d ^^^ 4294967295) &&& c)
  else if i < 48 then b ^^^ c ^^^ d
  else c ^^^ (b ||| (d ^^^ 4294967295))

/-- Message-word schedule index of round `i`. -/
def md5G (i : Nat) : Nat :=
  if i < 16 then i
  else if i < 32 then (5 * i + 1) % 16
  else if i < 48 then (3 * i + 5) % 16
  else (7 * i) % 16

/-- One MD5 round applied to the register state `(a, b, c, d)`. -/
def md5Step (ws : List Nat) (st : Nat × Nat × Nat × Nat) (i : Nat) :
    Nat × Nat × Nat × Nat :=
  let a := st.1
  let b := st.2.1
  let c := st.2.2.1
  let d := st.2.2.2
  let f := (md5F i b c d + a + md5K.getD i 0 + ws.getD (md5G i) 0) % m32
  (d, (b + rotl f (md5S.getD i 0)) % m32, b, c)

/-- Decode a 64-byte block into sixteen little-endian 32-bit words. -/
def md5Words (block : List Nat) : List Nat :=
  (List.range 16).map fun j =>
    block.getD (4 * j) 0 + 256 * block.getD (4 * j + 1) 0 +
    65536 * block.getD (4 * j + 2) 0 + 16777216 * block.getD (4 * j + 3) 0

/-- Process one 64-byte block, adding the round output to the state. -/
def md5Block (st : Nat × Nat × Nat × Nat) (block : List Nat) :
    Nat × Nat × Nat × Nat :=
  let ws := md5Words block
  let r := (List.range 64).foldl (md5Step ws) st
  ((st.1 + r.1) % m32, (st.2.1 + r.2.1) % m32,
   (st.2.2.1 + r.2.2.1) % m32, (st.2.2.2 + r.2.2.2) % m32)

/-- MD5 padding: `0x80`, zeros to 56 mod 64, then the bit length little-endian. -/
def md5Pad (msg : List Nat) : List Nat :=
  let L := msg.length
  let zeros := (120 - (L + 1) % 64) % 64
  let bitLen := 8 * L
  msg ++ [128] ++ List.replicate zeros 0 ++
    ((List.range 8).map fun j => (bitLen >>> (8 * j)) % 256)

/-- Split a list into groups of `n`; `fuel` bounds the recursion and is
exact whenever `fuel ≥ l.length` and `n > 0`. -/
def groupNGo (n : Nat) : Nat → List α → List (List α)
  | 0, _ => []
  | _, [] => []
  | fuel + 1, a :: l => (a :: l).take n :: groupNGo n fuel ((a :: l).drop n)

/-- Split a list into consecutive groups of `n` elements. -/
def groupN (n : Nat) (l : List α) : List (List α) := groupNGo n l.length l

/-- Little-endian bytes of a 32-bit value. -/
def le4 (x : Nat) : List Nat :=
  [x % 256, (x >>> 8) % 256, (x >>> 16) % 256, (x >>> 24) % 256]

/-- The 16-byte MD5 digest of a byte list. -/
def md5Digest (msg : List Nat) : List Nat :=
  let r := (groupN 64 (md5Pad msg)).foldl md5Block
    (0x67452301, 0xefcdab89, 0x98badcfe, 0x10325476)
  le4 r.1 ++ le4 r.2.1 ++ le4 r.2.2.1 ++ le4 r.2.2.2

/-- Lowercase hedadecimal digit of a value below 16. -/
def hexChar (n : Nat) : Char :=
  if n < 10 then Char.ofNat (48 + n) else Char.ofNat (87 + n)

/-- Two-character lowercase hex rendering of a byte. -/
def byteHex (b : Nat) : List Char := [hexChar (b / 16), hexChar (b % 16)]

/-- The lowercase hex string of the MD5 digest, as `digest('hex')` yields. -/
def md5Hex (msg : List Nat) : String :=
  String.mk (((md5Digest msg).map byteHex).flatten)

/-- UTF-8 encoding of a code point. -/
def utf8Encode (n : Nat) : List Nat :=
  if n < 128 then [n]
  else if n < 2048 then [192 + n / 64, 128 + n % 64]
  else if n < 65536 then [224 + n / 4096, 128 + (n / 64) % 64, 128 + n % 64]
  else [240 + n / 262144, 128 + (n / 4096) % 64, 128 + (n / 64) % 64, 128 + n % 64]

/-- The UTF-8 bytes of a string, the input Node's `crypto` hashes. -/
def strBytes (s : String) : List Nat :=
  (s.data.map fun c => utf8Encode c.toNat).flatten

/-- Value of a hexadecimal digit character (`parseInt` semantics on valid digits). -/
def hexDigitVal (c : Char) : Nat :=
  if 48 ≤ c.toNat ∧ c.toNat ≤ 57 then c.toNat - 48
  else if 97 ≤ c.toNat ∧ c.toNat ≤ 102 then c.toNat - 87
  else if 65 ≤ c.toNat ∧ c.toNat ≤ 70 then c.toNat - 55
  else 0

/-- `parseInt(s, 16)` on a string of valid hexadecimal digits. -/
def parseHex (s : String) : Nat :=
  s.data.foldl (fun acc c => 16 * acc + hexDigitVal c) 0

/-- Numeric chunk-point id: first 8 hex chars of `md5("documentId_chunkIndex")`
parsed base 16 (documentService.js line 205-209). -/
def derivePointId (documentId : String) (chunkIndex : Nat) : Nat :=
  parseHex ((md5Hex (strBytes (documentId ++ "_" ++ toString chunkIndex))).take 8)

/-- Numeric metadata id: the same scheme applied to the document id alone
(documentService.js line 237). -/
def deriveMetadataId (documentId : String) : Nat :=
  parseHex ((md5Hex (strBytes documentId)).take 8)

/-- Sanity anchor: the RFC 1321 test vector for the empty message. -/
theorem md5Hex_empty : md5Hex (strBytes "") = "d41d8cd98f00b204e9800998ecf8427e" := by
  decide

/-- Sanity anchor: the RFC 1321 test vector for "abc". -/
theorem md5Hex_abc : md5Hex (strBytes "abc") = "900150983cd24fb0d6963f7d28e17f72" := by
  decide

/-! ## Data model: points, collections, store -/

/-- A point of the `document_vectors` collection, as built by
`processDocument` (documentService.js lines 205-222). -/
structure ChunkPoint where
  id : Nat
  vector : List Int
  text : String
  documentId : String
  chunk : Nat
  originalId : String
deriving DecidableEq

/-- A point of the `document_metadata` collection, as built by
`processDocument` (documentService.js lines 237-254).  Timestamps are
modelled as milliseconds (`Date.now()` values); `originalId` is optional
because readers guard it with `|| point.id`. -/
structure MetaPoint where
  id : Nat
  originalId : Option String
  uploadedAt : Nat
  apiKeyHash : String
  originalFilename : String
  sourceType : String
  lastAccessed : Nat
deriving DecidableEq

/-- The two Qdrant collections used by the service. -/
structure Store where
  vectors : List ChunkPoint
  metadata : List MetaPoint
deriving DecidableEq

/-- A JS error object: message plus the optional machine-readable `code`. -/
structure Err where
  message : String
  code : Option String
deriving DecidableEq

/-- A payload value in a Qdrant filter: the service passes both strings
(documentId UUIDs) and numbers (numeric point keys). -/
inductive PValue where
  | strv (v : String)
  | natv (v : Nat)
deriving DecidableEq

/-- Qdrant `match` semantics on a keyword payload field: a numeric match
value never equals a stored string. -/
def matchValue (v : PValue) (field : String) : Bool :=
  match v with
  | .strv s => s == field
  | .natv _ => false

/-- Qdrant upsert of a single chunk point: overwrite the point with the
same id if present, else append. -/
def upsertChunk (l : List ChunkPoint) (p : ChunkPoint) : List ChunkPoint :=
  if l.any fun q => q.id == p.id then
    l.map fun q => if q.id == p.id then p else q
  else l ++ [p]

/-- Qdrant upsert of a list of chunk points, first to last. -/
def upsertChunks (l : List ChunkPoint) (ps : List ChunkPoint) : List ChunkPoint :=
  ps.foldl upsertChunk l

/-- Qdrant upsert of a metadata point: overwrite by id or append. -/
def upsertMeta (l : List MetaPoint) (m : MetaPoint) : List MetaPoint :=
  if l.any fun q => q.id == m.id then
    l.map fun q => if q.id == m.id then m else q
  else l ++ [m]

/-- Qdrant delete-by-ids on the chunk collection. -/
def deleteChunksByIds (l : List ChunkPoint) (ids : List Nat) : List ChunkPoint :=
  l.filter fun p => decide (p.id ∉ ids)

/-- Qdrant delete-by-ids on the metadata collection. -/
def deleteMetaByIds (l : List MetaPoint) (ids : List Nat) : List MetaPoint :=
  l.filter fun m => decide (m.id ∉ ids)

/-! ## Chunker (documentService.js lines 156-173)

The loop `for (let i = 0; i < text.length; i += chunkSize - overlap)`
with `chunkSize = 2000`, `overlap = 200` pushes `text.substring(i, i + 2000)`
whenever it is non-empty.  `fuel` bounds the recursion; `text.length`
steps always suffice because `i` grows by 1800 per step. -/

/-- The chunking loop from offset `i`, with `fuel` remaining steps. -/
def chunkTextGo (text : List Char) : Nat → Nat → List (List Char)
  | _, 0 => []
  | i, fuel + 1 =>
    if i < text.length then
      let c := (text.drop i).take 2000
      if c = [] then chunkTextGo text (i + 1800) fuel
      else c :: chunkTextGo text (i + 1800) fuel
    else []

/-- All chunks of a text: the loop starting at offset 0. -/
def chunkText (text : List Char) : List (List Char) :=
  chunkTextGo text 0 text.length

/-- Concatenation of chunks with each non-first chunk's leading
200-character overlap removed. -/
def reassemble : List (List Char) → List Char
  | [] => []
  | c :: rest => c ++ (rest.map fun d => d.drop 200).flatten

/-! ## Ingestion orchestrator (documentService.js `processDocument`) -/

/-- One chunk point as built in the batch loop (lines 205-222):
numeric id from `derivePointId`, payload retaining text, documentId,
chunk index and the original string id. -/
def mkChunkPoint (docId : String) (idx : Nat) (text : String) (vec : List Int) :
    ChunkPoint :=
  { id := derivePointId docId idx
    vector := vec
    text := text
    documentId := docId
    chunk := idx
    originalId := docId ++ "_" ++ toString idx }

/-- The points of one batch: chunk texts paired positionally with their
embeddings, indices starting at `base`. -/
def buildPoints (docId : String) : Nat → List String → List (List Int) → List ChunkPoint
  | base, t :: ts, v :: vs => mkChunkPoint docId base t v :: buildPoints docId (base + 1) ts vs
  | _, _, _ => []

/-- The batch loop of `processDocument` (lines 193-234): take 5 chunks,
embed them (`embed` models `embeddings.embedDocuments`), upsert the
resulting points, continue; the first embedding failure aborts the loop
with that error and the store as committed so far.  `fuel ≥` number of
chunks makes the bound exact. -/
def ingestBatches (embed : List String → Except Err (List (List Int)))
    (docId : String) : Nat → List String → Nat → Store → Store × Option Err
  | 0, _, _, st => (st, none)
  | fuel + 1, rest, base, st =>
    if rest.isEmpty then (st, none)
    else
      match embed (rest.take 5) with
      | .error e => (st, some e)
      | .ok vecs =>
        let pts := buildPoints docId base (rest.take 5) vecs
        ingestBatches embed docId fuel (rest.drop 5)
          (base + 5) ⟨upsertChunks st.vectors pts, st.metadata⟩

/-- `splitDocs` accumulated over the docs array (lines 155-172): each
document's text is chunked and the chunks appended in order. -/
def splitAll (docs : List String) : List String :=
  docs.foldl (fun acc d => acc ++ (chunkText d.data).map String.mk) []

/-- `processDocument` from content extraction onwards (lines 146-275).
`docs` is the array of extracted document texts (the loaders always
produce a one-element array), `embed` the embedding collaborator,
`sha256h` the SHA-256 collaborator, `docId` the generated UUID and `now`
the current time.  Returns the updated store and the document id or a
typed error. -/
def processDocument (apiKey : Option String) (docs : List String)
    (originalFilename ftype docId : String)
    (embed : List String → Except Err (List (List Int)))
    (sha256h : String → String) (now : Nat) (st : Store) :
    Store × Except Err String :=
  match apiKey with
  | none => (st, .error ⟨"Google API key is not provided", some "API_KEY_MISSING"⟩)
  | some key =>
    if docs.length = 0 then
      (st, .error ⟨"No content extracted from document", some "EMPTY_CONTENT"⟩)
    else
      let splitDocs := splitAll docs
      let run := ingestBatches embed docId splitDocs.length splitDocs 0 st
      match run.2 with
      | some _ =>
        (run.1, .error ⟨"Failed to create vector embeddings", some "VECTOR_CREATION_FAILED"⟩)
      | none =>
        let meta : MetaPoint :=
          { id := deriveMetadataId docId
            originalId := some docId
            uploadedAt := now
            apiKeyHash := sha256h key
            originalFilename := originalFilename
            sourceType := ftype
            lastAccessed := now }
        (⟨run.1.vectors, upsertMeta run.1.metadata meta⟩, .ok docId)

/-! ## Lifecycle sweeper (cleanupService.js `cleanupVectorDb`) -/

/-- 24 hours in milliseconds (cleanupService.js line 5). -/
def oneDayMs : Nat := 24 * 60 * 60 * 1000

/-- Body of the sweep loop (lines 30-56) for one scanned metadata point:
`documentId` is bound to `point.id` (the numeric metadata key); stale
documents get a chunk delete filtered on that numeric value and a
metadata delete by that id. -/
def cleanupStep (now : Nat) (acc : Store × List Nat) (point : MetaPoint) :
    Store × List Nat :=
  let documentId := point.id
  if now - point.lastAccessed > oneDayMs then
    let vecs := acc.1.vectors.filter fun c => ! matchValue (PValue.natv documentId) c.documentId
    let metas := acc.1.metadata.filter fun m => m.id != documentId
    (⟨vecs, metas⟩, acc.2 ++ [documentId])
  else acc

/-- `cleanupVectorDb`: scroll the metadata collection (limit 100) and
apply the sweep body to each scanned point; returns the store and the
deleted ids. -/
def cleanupVectorDb (now : Nat) (st : Store) : Store × List Nat :=
  (st.metadata.take 100).foldl (cleanupStep now) (st, [])

/-- `recordDocumentAccess` (documentService.js lines 423-432): the body
only returns `true`; no store state is read or written. -/
def recordDocumentAccess (documentId : String) (st : Store) : Store × Bool :=
  (st, true)

/-! ## Retrieval orchestrator (generateResponse) -/

/-- A search hit: a chunk point together with its similarity score for
the current query embedding (scores are store-assigned; larger means
more similar). -/
structure SPoint where
  id : Nat
  documentId : String
  text : String
  score : Nat
deriving DecidableEq

/-- Insert into a descending-by-score list, after existing equal scores
(stable). -/
def insertDesc (p : SPoint) : List SPoint → List SPoint
  | [] => [p]
  | q :: t => if q.score < p.score then p :: q :: t else q :: insertDesc p t

/-- Similarity ranking: sort descending by score (model of the store's
nearest-first result order). -/
def sortDesc (l : List SPoint) : List SPoint := l.foldr insertDesc []

/-- Server-side filtered search with limit 3 (part_000 lines 36-44):
restrict to the document's points, rank, return the top 3. -/
def searchPrimary (points : List SPoint) (documentId : String) : List SPoint :=
  (sortDesc (points.filter fun p => p.documentId == documentId)).take 3

/-- Client-side fallback (part_000 lines 47-55): unfiltered search with
limit 20, filter on payload documentId, then `slice(0, 3)`. -/
def searchFallback (points : List SPoint) (documentId : String) : List SPoint :=
  (((sortDesc points).take 20).filter fun p => p.documentId == documentId).take 3

/-- The prompt template of part_000 lines 78-86. -/
def promptTemplate (context query : String) : String :=
  "Based on the following information, please answer the question.\n\nContext information:\n"
    ++ context ++ "\n\nQuestion: " ++ query ++ "\n\nAnswer:"

/-- `generateResponse` before the catch-all (part_000 lines 9-91):
errors thrown inside carry their original `code` field (possibly none). -/
def generateResponseInner (apiKey : Option String) (query documentId : String)
    (points : List SPoint) (primaryFails : Bool) (gen : String → String) :
    Except Err String :=
  match apiKey with
  | none => .error ⟨"Google API key is not provided", some "API_KEY_MISSING"⟩
  | some _ =>
    let searchResults :=
      if primaryFails then searchFallback points documentId
      else searchPrimary points documentId
    if searchResults.isEmpty then
      .error ⟨"No matching documents found for this query", none⟩
    else
      let context := String.intercalate "\n\n" (searchResults.map fun r => r.text)
      .ok (gen (promptTemplate context query))

/-- `generateResponse` (part_000 lines 8-99): records document access
(a no-op), runs the inner body, and in the catch block assigns
`RESPONSE_GENERATION_FAILED` to any error lacking a `code`.
`primaryFails` selects the degraded client-side-filter path taken when
the server rejects the scoped search; `gen` is the generation
collaborator. -/
def generateResponse (apiKey : Option String) (query documentId : String)
    (points : List SPoint) (primaryFails : Bool) (gen : String → String)
    (st : Store) : Store × Except Err String :=
  let st1 := (recordDocumentAccess documentId st).1
  match generateResponseInner apiKey query documentId points primaryFails gen with
  | .ok t => (st1, .ok t)
  | .error e => (st1, .error ⟨e.message, some (e.code.getD "RESPONSE_GENERATION_FAILED")⟩)

/-! ## Duplicate resolver (documentService.js `checkDuplicateFile`) -/

/-- What `checkDuplicateFile` returns for a match:
`matchingPoint.payload.originalId || matchingPoint.id`. -/
inductive DocRef where
  | str (s : String)
  | num (n : Nat)
deriving DecidableEq

/-- The match predicate of lines 51-55: same apiKeyHash and same
originalFilename. -/
def matchingDup (apiKeyHash originalFilename : String) (p : MetaPoint) : Bool :=
  p.apiKeyHash == apiKeyHash && p.originalFilename == originalFilename

/-- `checkDuplicateFile` (lines 37-66): hash `apiKey || ''`, bootstrap
the metadata collection, scroll it (limit 100) and return the first
match; any thrown error is caught and yields `none` (null). `ensureRes`
and `scrollRes` model the two fallible collaborator calls; `scrollRes`
carries the full collection, of which the scroll returns at most 100
points. -/
def checkDuplicateFile (originalFilename : String) (apiKey : Option String)
    (sha256h : String → String) (ensureRes : Except Err Unit)
    (scrollRes : Except Err (List MetaPoint)) : Option DocRef :=
  let apiKeyHash := sha256h (apiKey.getD "")
  match ensureRes with
  | .error _ => none
  | .ok _ =>
    match scrollRes with
    | .error _ => none
    | .ok pts =>
      match (pts.take 100).find? (matchingDup apiKeyHash originalFilename) with
      | some p =>
        some (match p.originalId with
              | some s => .str s
              | none => .num p.id)
      | none => none

/-! ## Explicit deletion (documentService.js `deleteDocument`) -/

/-- `pointsToDelete` of deleteDocument lines 313-321: the ids of the
scanned chunk points (scroll limit 1000) whose payload documentId equals
the argument. -/
def chunksToDelete (documentId : String) (st : Store) : List Nat :=
  ((st.vectors.take 1000).filter fun p => p.documentId == documentId).map fun p => p.id

/-- `metadataToDelete` of the fallback path, lines 346-353: the ids of
the scanned metadata points (scroll limit 100) whose payload originalId
equals the argument. -/
def metaToDelete (documentId : String) (st : Store) : List Nat :=
  ((st.metadata.take 100).filter fun m => m.originalId == some documentId).map fun m => m.id

/-- `deleteDocument` (lines 297-375): scroll the chunk collection
(limit 1000), delete by id every scanned point whose payload documentId
equals the argument (skipping the call when none match), then delete the
metadata point with the derived numeric key; if that delete throws
(`metaDeleteFails`), fall back to scanning the metadata collection
(limit 100) and deleting the points whose payload originalId equals the
argument (again skipping an empty delete). -/
def deleteDocument (documentId : String) (metaDeleteFails : Bool) (st : Store) :
    Store × Except Err Bool :=
  if documentId = "" then
    (st, .error ⟨"Document ID is required", some "DOCUMENT_DELETION_FAILED"⟩)
  else
    (⟨if (chunksToDelete documentId st).isEmpty then st.vectors
      else deleteChunksByIds st.vectors (chunksToDelete documentId st),
      if metaDeleteFails then
        if (metaToDelete documentId st).isEmpty then st.metadata
        else deleteMetaByIds st.metadata (metaToDelete documentId st)
      else deleteMetaByIds st.metadata [deriveMetadataId documentId]⟩,
     .ok true)

/-! ## Shared store-operation lemmas -/

theorem upsertChunk_pos (l : List ChunkPoint) (p : ChunkPoint)
    (h : (l.any fun q => q.id == p.id) = true) :
    upsertChunk l p = l.map fun q => if q.id == p.id then p else q := by
  simp [upsertChunk, h]

theorem upsertChunk_neg (l : List ChunkPoint) (p : ChunkPoint)
    (h : (l.any fun q => q.id == p.id) = false) :
    upsertChunk l p = l ++ [p] := by
  simp [upsertChunk, h]

theorem upsertChunk_idem (l : List ChunkPoint) (p : ChunkPoint) :
    upsertChunk (upsertChunk l p) p = upsertChunk l p := by
  cases hany : l.any fun q => q.id == p.id
  · rw [upsertChunk_neg l p hany]
    have hmem : ((l ++ [p]).any fun q => q.id == p.id) = true :=
      List.any_eq_true.mpr ⟨p, by simp, by simp⟩
    rw [upsertChunk_pos _ _ hmem, List.map_append]
    have hl : (l.map fun q => if q.id == p.id then p else q) = l := by
      have hfix : ∀ a ∈ l, (if a.id == p.id then p else a) = a := by
        intro a ha
        have hne : (a.id == p.id) = false := by
          cases hc : a.id == p.id
          · rfl
          · exact absurd (List.any_eq_true.mpr ⟨a, ha, hc⟩) (by rw [hany]; simp)
        simp [hne]
      calc (l.map fun q => if q.id == p.id then p else q) = l.map id :=
            List.map_congr_left (by simpa using hfix)
        _ = l := List.map_id l
    rw [hl]
    simp
  · rw [upsertChunk_pos l p hany]
    have hmem : ((l.map fun q => if q.id == p.id then p else q).any
        fun q => q.id == p.id) = true := by
      rcases List.any_eq_true.mp hany with ⟨q, hq, hqid⟩
      refine List.any_eq_true.mpr ⟨p, ?_, by simp⟩
      refine List.mem_map.mpr ⟨q, hq, ?_⟩
      simp [hqid]
    rw [upsertChunk_pos _ _ hmem, List.map_map]
    refine List.map_congr_left ?_
    intro a _
    by_cases ha : (a.id == p.id) = true <;> simp [ha, Function.comp]

/-! ## Claim C1 — eviction of stale documents

`cleanupVectorDb` binds `documentId` to `point.id`, the 32-bit numeric
metadata key, and filters the chunk delete on that number, while every
chunk point stores the UUID string in its `documentId` payload field.
The filter therefore never matches and a stale document's chunks all
survive the sweep (only its metadata point is deleted). -/

/-- A store holding one stale document: metadata key 123, document UUID
"doc-uuid", one chunk, last accessed at time 0. -/
def c1Store : Store :=
  ⟨[⟨1, [0], "chunk text", "doc-uuid", 0, "doc-uuid_0"⟩],
   [⟨123, some "doc-uuid", 0, "h", "f.pdf", "pdf", 0⟩]⟩

/-- C1: the sweep at time `2 * oneDayMs` sees a document whose
lastAccessed (0) is a full day beyond the retention window, deletes its
metadata point, yet leaves the chunk collection exactly as it was: the
chunk whose payload documentId is "doc-uuid" is still present, because
the delete filter compares the numeric metadata key 123 against the
stored UUID string.  This refutes the claimed absence of the document's
points from the chunk collection. -/
theorem C1_stale_doc_chunks_survive_sweep :
    2 * oneDayMs - 0 > oneDayMs
    ∧ (cleanupVectorDb (2 * oneDayMs) c1Store).1.metadata = []
    ∧ (cleanupVectorDb (2 * oneDayMs) c1Store).1.vectors = c1Store.vectors
    ∧ c1Store.vectors.filter (fun p => p.documentId == "doc-uuid") ≠ [] := by
  refine ⟨by decide, by decide, by decide, by decide⟩

/-! ## Claim C2 — retrieval does not refresh lastAccessedAt -/

/-- Store with one document whose stored lastAccessed is 0. -/
def c2Store : Store :=
  ⟨[⟨1, [0], "chunk text", "doc-uuid", 0, "doc-uuid_0"⟩],
   [⟨123, some "doc-uuid", 0, "h", "f.pdf", "pdf", 0⟩]⟩

/-- The search hits available for the query against that document. -/
def c2Scored : List SPoint := [⟨1, "doc-uuid", "chunk text", 5⟩]

/-- A successful retrieval against the document. -/
def c2Retrieval : Store × Except Err String :=
  generateResponse (some "k") "q" "doc-uuid" c2Scored false (fun _ => "answer") c2Store

/-- C2 counterexample: a retrieval succeeds (so, per the claim, the
document was accessed within the window of the sweep one millisecond
later), yet the sweep deletes the document's metadata record, because
`recordDocumentAccess` persisted nothing and the stored lastAccessed is
still 0.  The claimed survival of the metadata record is false. -/
theorem C2_cex_retrieved_doc_still_evicted :
    c2Retrieval.2 = .ok "answer"
    ∧ 2 * oneDayMs - (2 * oneDayMs - 1) ≤ oneDayMs
    ∧ (cleanupVectorDb (2 * oneDayMs) c2Retrieval.1).1.metadata = [] := by
  refine ⟨rfl, by decide, by decide⟩

/-! ## Claim C3 — empty extracted text is not rejected -/

/-- `processDocument` applied to an extraction that produced the empty
text (the docs array `[""]`), with collaborators that are never used
since zero chunks means zero batches. -/
def c3Run : Store × Except Err String :=
  processDocument (some "key") [""] "f.pdf" "pdf" "doc-1"
    (fun _ => .error ⟨"embedding should never be called", none⟩)
    (fun s => s) 1000 ⟨[], []⟩

/-- C3: on empty extracted text the chunker yields zero chunks, but the
`EMPTY_CONTENT` guard only checks `docs.length === 0`, which is false
for `[""]`; the run returns the documentId and upserts a metadata
record while storing no chunk points — the claimed typed failure does
not happen. -/
theorem C3_empty_text_ingestion_succeeds :
    c3Run.2 = .ok "doc-1"
    ∧ c3Run.1.vectors = []
    ∧ c3Run.1.metadata =
        [⟨deriveMetadataId "doc-1", some "doc-1", 1000, "key", "f.pdf", "pdf", 1000⟩] := by
  exact ⟨rfl, rfl, rfl⟩

/-! ## Claim C4 — the zero-chunk error code -/

/-- A retrieval whose scoped search returns zero chunks: the only point
in the collection belongs to another document. -/
def c4Run : Store × Except Err String :=
  generateResponse (some "k") "q" "doc" [⟨1, "other", "t", 10⟩] false
    (fun _ => "ans") ⟨[], []⟩

/-- C4 counterexample: with zero chunks returned the thrown error has no
`code`, so the catch-all assigns `RESPONSE_GENERATION_FAILED`; the
caller never sees a `NO_CONTEXT_FOUND` code. -/
theorem C4_cex_zero_chunks_code_is_generic :
    c4Run.2 = .error ⟨"No matching documents found for this query",
        some "RESPONSE_GENERATION_FAILED"⟩
    ∧ ("RESPONSE_GENERATION_FAILED" : String) ≠ "NO_CONTEXT_FOUND" := by
  exact ⟨rfl, by decide⟩

/-! ## Claim C5 — the degraded search path -/

/-- Twenty high-scoring points of another document followed by the
target document's single, low-scoring point. -/
def c5Points : List SPoint :=
  ((List.range 20).map fun i => ⟨i, "other", "t", 100 - i⟩) ++ [⟨99, "target", "q", 1⟩]

/-- C5 counterexample: the target document has 1 ≤ 20 matching chunks,
yet the degraded path retrieves the 20 foreign points, filters them all
away and returns nothing, while the server-side filtered search returns
the document's chunk: the two paths differ although the true match
count is within the enlarged limit. -/
theorem C5_cex_fallback_misses_low_ranked_doc :
    (c5Points.filter fun p => p.documentId == "target").length ≤ 20
    ∧ searchFallback c5Points "target" ≠ searchPrimary c5Points "target" := by
  exact ⟨by decide, by decide⟩

/-! ## Claim C6 — deterministic ids, idempotent upsert -/

/-- C6: `derivePointId` and `deriveMetadataId` are pure functions of
their inputs (two evaluations on the same inputs are equal), and
re-upserting the chunk point built for a fixed `(documentId, chunkIndex)`
pair with the same content leaves the collection exactly as after the
first upsert: the write lands on the same numeric id instead of creating
a duplicate. -/
theorem C6_derivation_deterministic_upsert_idempotent :
    ∀ (d t : String) (i : Nat) (v : List Int) (l : List ChunkPoint),
      derivePointId d i = derivePointId d i
      ∧ deriveMetadataId d = deriveMetadataId d
      ∧ upsertChunk (upsertChunk l (mkChunkPoint d i t v)) (mkChunkPoint d i t v)
          = upsertChunk l (mkChunkPoint d i t v) := by
  intro d t i v l
  exact ⟨rfl, rfl, upsertChunk_idem l (mkChunkPoint d i t v)⟩

/-! ## Chunker lemmas -/

theorem chunkGo_stop (text : List Char) (i fuel : Nat) (h : ¬ i < text.length) :
    chunkTextGo text i fuel = [] := by
  cases fuel <;> simp [chunkTextGo, h]

theorem chunk_ne_nil (text : List Char) (i : Nat) (h : i < text.length) :
    (text.drop i).take 2000 ≠ [] := by
  refine List.length_pos.mp ?_
  rw [List.length_take, List.length_drop]
  omega

theorem chunkGo_step (text : List Char) (i fuel : Nat) (h : i < text.length) :
    chunkTextGo text i (fuel + 1) =
      (text.drop i).take 2000 :: chunkTextGo text (i + 1800) fuel := by
  simp only [chunkTextGo, if_pos h]
  rw [if_neg (chunk_ne_nil text i h)]

theorem chunkGo_length (text : List Char) :
    ∀ fuel i, text.length ≤ i + fuel * 1800 →
      (chunkTextGo text i fuel).length = (text.length - i + 1799) / 1800 := by
  intro fuel
  induction fuel with
  | zero =>
    intro i h
    simp only [chunkTextGo, List.length_nil]
    omega
  | succ f ih =>
    intro i h
    by_cases hi : i < text.length
    · rw [chunkGo_step text i f hi, List.length_cons, ih (i + 1800) (by omega)]
      omega
    · rw [chunkGo_stop text i _ hi]
      simp only [List.length_nil]
      omega

theorem chunkGo_getD (text : List Char) :
    ∀ k fuel i, text.length ≤ i + fuel * 1800 → i + 1800 * k < text.length →
      (chunkTextGo text i fuel).getD k [] = (text.drop (i + 1800 * k)).take 2000 := by
  intro k
  induction k with
  | zero =>
    intro fuel i hf hk
    have hi : i < text.length := by omega
    cases fuel with
    | zero => omega
    | succ f =>
      rw [chunkGo_step text i f hi, List.getD_cons_zero]
      simp
  | succ k ih =>
    intro fuel i hf hk
    have hi : i < text.length := by omega
    cases fuel with
    | zero => omega
    | succ f =>
      rw [chunkGo_step text i f hi, List.getD_cons_succ,
        ih f (i + 1800) (by omega) (by omega)]
      congr 2
      omega

theorem chunkGo_tail_flatten (text : List Char) :
    ∀ fuel i, text.length ≤ i + fuel * 1800 →
      ((chunkTextGo text i fuel).map fun d => d.drop 200).flatten = text.drop (i + 200) := by
  intro fuel
  induction fuel with
  | zero =>
    intro i h
    simp only [chunkTextGo, List.map_nil, List.flatten_nil]
    exact (List.drop_eq_nil_of_le (by omega)).symm
  | succ f ih =>
    intro i h
    by_cases hi : i < text.length
    · rw [chunkGo_step text i f hi]
      simp only [List.map_cons, List.flatten_cons]
      rw [ih (i + 1800) (by omega)]
      rw [List.drop_take, List.drop_drop]
      have h1 : (2000 - 200 : Nat) = 1800 := by norm_num
      rw [h1]
      have h2 : i + 1800 + 200 = i + 200 + 1800 := by omega
      rw [h2, ← List.drop_drop 1800 (i + 200) text]
      exact List.take_append_drop 1800 (text.drop (i + 200))
    · rw [chunkGo_stop text i _ hi]
      simp only [List.map_nil, List.flatten_nil]
      exact (List.drop_eq_nil_of_le (by omega)).symm

/-- C7: for non-empty text, the chunker produces exactly
`ceil(L / 1800) = (L + 1799) / 1800` chunks; chunk `k` is the substring
at offset `1800 * k` of length at most 2000 and is non-empty; and the
first chunk followed by every later chunk with its leading 200-character
overlap removed reconstructs the text.  (For a 4500-character text the
count formula gives 3 chunks, at offsets 0, 1800 and 3600.) -/
theorem C7_chunking_count_offsets_reassembly (text : List Char)
    (h : 0 < text.length) :
    (chunkText text).length = (text.length + 1799) / 1800
    ∧ (∀ k, k < (chunkText text).length →
        (chunkText text).getD k [] = (text.drop (1800 * k)).take 2000
        ∧ (chunkText text).getD k [] ≠ [])
    ∧ reassemble (chunkText text) = text := by
  have hfuel : text.length ≤ 0 + text.length * 1800 := by omega
  have hlen : (chunkText text).length = (text.length - 0 + 1799) / 1800 :=
    chunkGo_length text text.length 0 hfuel
  refine ⟨by rw [hlen]; omega, ?_, ?_⟩
  · intro k hk
    rw [hlen] at hk
    have hoff : 0 + 1800 * k < text.length := by omega
    have hget : (chunkText text).getD k [] = (text.drop (0 + 1800 * k)).take 2000 :=
      chunkGo_getD text k text.length 0 hfuel hoff
    rw [Nat.zero_add] at hget
    refine ⟨hget, ?_⟩
    rw [hget]
    exact chunk_ne_nil text (1800 * k) (by omega)
  · have hchunk : chunkText text = chunkTextGo text 0 text.length := rfl
    rw [hchunk]
    cases hf : text.length with
    | zero => omega
    | succ f =>
      rw [chunkGo_step text 0 f (by omega)]
      show List.take 2000 (List.drop 0 text) ++
        ((chunkTextGo text (0 + 1800) f).map fun d => List.drop 200 d).flatten = text
      rw [chunkGo_tail_flatten text f (0 + 1800) (by omega)]
      rw [List.drop_zero]
      rw [show (0 + 1800 + 200 : Nat) = 2000 from by norm_num]
      exact List.take_append_drop 2000 text

/-- C7 witness: the theorem applied to a concrete 4500-character text;
the count formula evaluates to 3 chunks. -/
theorem C7_witness :
    0 < (List.replicate 4500 'a').length
    ∧ ((chunkText (List.replicate 4500 'a')).length
        = ((List.replicate 4500 'a').length + 1799) / 1800
      ∧ (∀ k, k < (chunkText (List.replicate 4500 'a')).length →
          (chunkText (List.replicate 4500 'a')).getD k []
            = ((List.replicate 4500 'a').drop (1800 * k)).take 2000
          ∧ (chunkText (List.replicate 4500 'a')).getD k [] ≠ [])
      ∧ reassemble (chunkText (List.replicate 4500 'a')) = List.replicate 4500 'a')
    ∧ ((List.replicate 4500 'a').length + 1799) / 1800 = 3 := by
  have hlen : (List.replicate 4500 'a').length = 4500 := by
    rw [List.length_replicate]
  have h : 0 < (List.replicate 4500 'a').length := by
    rw [hlen]; norm_num
  refine ⟨h, C7_chunking_count_offsets_reassembly (List.replicate 4500 'a') h, ?_⟩
  rw [hlen]

/-! ## Ranking lemmas for the two search paths -/

/-- Descending similarity order. -/
def SortedD (l : List SPoint) : Prop :=
  List.Pairwise (fun a b => b.score ≤ a.score) l

theorem insertDesc_front (p : SPoint) (m : List SPoint)
    (h : ∀ x ∈ m, x.score < p.score) : insertDesc p m = p :: m := by
  cases m with
  | nil => rfl
  | cons q t =>
    simp only [insertDesc]
    rw [if_pos (h q (List.mem_cons_self q t))]

theorem mem_insertDesc {x p : SPoint} {l : List SPoint} :
    x ∈ insertDesc p l ↔ x = p ∨ x ∈ l := by
  induction l with
  | nil => simp [insertDesc]
  | cons q t ih =>
    by_cases hq : q.score < p.score
    · simp only [insertDesc, if_pos hq]
      simp
    · simp only [insertDesc, if_neg hq]
      simp [ih]
      tauto

theorem insertDesc_sorted (p : SPoint) (l : List SPoint) (h : SortedD l) :
    SortedD (insertDesc p l) := by
  induction l with
  | nil => simp [insertDesc, SortedD]
  | cons q t ih =>
    rcases List.pairwise_cons.mp h with ⟨hq, ht⟩
    by_cases hqs : q.score < p.score
    · simp only [insertDesc, if_pos hqs]
      refine List.pairwise_cons.mpr ⟨?_, h⟩
      intro b hb
      rcases List.mem_cons.mp hb with rfl | hbt
      · omega
      · have := hq b hbt
        omega
    · simp only [insertDesc, if_neg hqs]
      refine List.pairwise_cons.mpr ⟨?_, ih ht⟩
      intro b hb
      rcases mem_insertDesc.mp hb with rfl | hbt
      · omega
      · exact hq b hbt

theorem sortDesc_sorted (l : List SPoint) : SortedD (sortDesc l) := by
  induction l with
  | nil => simp [sortDesc, SortedD]
  | cons a t ih => exact insertDesc_sorted a (sortDesc t) ih

theorem filter_insertDesc (f : SPoint → Bool) (p : SPoint) (l : List SPoint)
    (hs : SortedD l) :
    (insertDesc p l).filter f =
      if f p then insertDesc p (l.filter f) else l.filter f := by
  induction l with
  | nil => cases hf : f p <;> simp [insertDesc, hf]
  | cons q t ih =>
    rcases List.pairwise_cons.mp hs with ⟨hq, ht⟩
    by_cases hqs : q.score < p.score
    · simp only [insertDesc, if_pos hqs]
      cases hf : f p
      · simp only [Bool.false_eq_true, if_false]
        rw [List.filter_cons_of_neg (by simp [hf])]
      · simp only [if_true]
        rw [List.filter_cons_of_pos hf]
        have hall : ∀ x ∈ (q :: t).filter f, x.score < p.score := by
          intro x hx
          rcases List.mem_cons.mp (List.mem_of_mem_filter hx) with rfl | hxt
          · exact hqs
          · have := hq x hxt
            omega
        rw [insertDesc_front p _ hall]
    · simp only [insertDesc, if_neg hqs]
      cases hfq : f q
      · rw [List.filter_cons_of_neg (by simp [hfq]),
          List.filter_cons_of_neg (by simp [hfq]), ih ht]
      · rw [List.filter_cons_of_pos hfq, List.filter_cons_of_pos hfq, ih ht]
        cases hf : f p
        · simp only [Bool.false_eq_true, if_false]
        · simp only [if_true, insertDesc]
          rw [if_neg hqs]

theorem filter_sortDesc (f : SPoint → Bool) (l : List SPoint) :
    (sortDesc l).filter f = sortDesc (l.filter f) := by
  induction l with
  | nil => rfl
  | cons a t ih =>
    show (insertDesc a (sortDesc t)).filter f = sortDesc ((a :: t).filter f)
    rw [filter_insertDesc f a (sortDesc t) (sortDesc_sorted t), ih]
    cases hf : f a
    · rw [List.filter_cons_of_neg (by simp [hf])]
      simp
    · rw [List.filter_cons_of_pos hf]
      rfl

/-- C5 amended: the degraded path agrees (as a list, hence as a set)
with the server-side filtered search whenever no chunk of the document
is ranked beyond the fallback's retrieved window of 20 — in particular
whenever the whole collection fits in 20 points.  The original
precondition (at most 20 matching chunks) is not enough, as
`C5_cex_fallback_misses_low_ranked_doc` shows. -/
theorem C5_amended_fallback_equals_filtered (points : List SPoint)
    (documentId : String)
    (h : ((sortDesc points).drop 20).filter (fun p => p.documentId == documentId) = []) :
    searchFallback points documentId = searchPrimary points documentId := by
  unfold searchFallback searchPrimary
  have hsplit : (sortDesc points).filter (fun p => p.documentId == documentId)
      = ((sortDesc points).take 20).filter (fun p => p.documentId == documentId) := by
    conv_lhs => rw [← List.take_append_drop 20 (sortDesc points)]
    rw [List.filter_append, h, List.append_nil]
  rw [← hsplit, filter_sortDesc]

/-- A collection small enough for the fallback window. -/
def c5SmallPoints : List SPoint := [⟨1, "doc", "a", 5⟩, ⟨2, "other", "b", 9⟩]

/-- C5 amended witness: on a two-point collection the hypothesis holds
and both search paths coincide. -/
theorem C5_amended_witness :
    ((sortDesc c5SmallPoints).drop 20).filter (fun p => p.documentId == "doc") = []
    ∧ searchFallback c5SmallPoints "doc" = searchPrimary c5SmallPoints "doc" := by
  exact ⟨by decide, C5_amended_fallback_equals_filtered c5SmallPoints "doc" (by decide)⟩

/-- C4 amended: whenever the selected search path (scoped, or the
client-side fallback) yields zero chunks, `generateResponse` fails — for
every generation collaborator, so generation is never consulted — with
the uncoded error "No matching documents found for this query", which
the catch-all then tags `RESPONSE_GENERATION_FAILED` (not
`NO_CONTEXT_FOUND`, which appears nowhere in the code). -/
theorem C4_amended_zero_chunks_generic_error
    (k query documentId : String) (points : List SPoint) (pf : Bool) (st : Store)
    (h : (if pf then searchFallback points documentId
          else searchPrimary points documentId) = []) :
    ∀ gen : String → String,
      (generateResponse (some k) query documentId points pf gen st).2 =
        .error ⟨"No matching documents found for this query",
          some "RESPONSE_GENERATION_FAILED"⟩ := by
  intro gen
  unfold generateResponse generateResponseInner recordDocumentAccess
  simp [h]

/-- C4 amended witness: the empty collection satisfies the hypothesis on
the primary path and the theorem yields the concrete error. -/
theorem C4_amended_witness :
    (if false then searchFallback [] "d" else searchPrimary [] "d") = []
    ∧ (generateResponse (some "k") "q" "d" [] false (fun _ => "ans") ⟨[], []⟩).2 =
        .error ⟨"No matching documents found for this query",
          some "RESPONSE_GENERATION_FAILED"⟩ := by
  refine ⟨rfl, C4_amended_zero_chunks_generic_error "k" "q" "d" [] false ⟨[], []⟩ rfl (fun _ => "ans")⟩

/-! ## Sweep lemmas -/

theorem cleanupStep_vectors (now : Nat) (acc : Store × List Nat) (p : MetaPoint) :
    (cleanupStep now acc p).1.vectors = acc.1.vectors := by
  unfold cleanupStep
  by_cases h : now - p.lastAccessed > oneDayMs
  · simp only [if_pos h]
    exact List.filter_eq_self.mpr fun a _ => by simp [matchValue]
  · simp [if_neg h]

theorem cleanup_foldl_vectors (now : Nat) :
    ∀ (pts : List MetaPoint) (acc : Store × List Nat),
      ((pts.foldl (cleanupStep now) acc).1.vectors) = acc.1.vectors := by
  intro pts
  induction pts with
  | nil => intro acc; rfl
  | cons p rest ih =>
    intro acc
    rw [List.foldl_cons, ih (cleanupStep now acc p), cleanupStep_vectors]

theorem cleanup_foldl_mem (now : Nat) (m : MetaPoint) :
    ∀ (pts : List MetaPoint) (acc : Store × List Nat),
      m ∈ acc.1.metadata →
      (∀ p ∈ pts, p.id = m.id → ¬ now - p.lastAccessed > oneDayMs) →
      m ∈ (pts.foldl (cleanupStep now) acc).1.metadata := by
  intro pts
  induction pts with
  | nil =>
    intro acc hm _
    simpa using hm
  | cons p rest ih =>
    intro acc hm hsafe
    rw [List.foldl_cons]
    refine ih (cleanupStep now acc p) ?_
      fun q hq => hsafe q (List.mem_cons_of_mem p hq)
    unfold cleanupStep
    by_cases hstale : now - p.lastAccessed > oneDayMs
    · simp only [if_pos hstale]
      refine List.mem_filter.mpr ⟨hm, ?_⟩
      have hne : m.id ≠ p.id := by
        intro hc
        exact hsafe p (List.mem_cons_self p rest) hc.symm hstale
      simp [bne_iff_ne, hne]
    · simp only [if_neg hstale]
      exact hm

/-- C2 amended: `recordDocumentAccess` returns `true` without touching
any state (and `generateResponse` leaves the store unchanged), so a
retrieval never refreshes `lastAccessed`; survival of a sweep is decided
solely by the stored timestamp: a scanned metadata record whose stored
`lastAccessed` is within the retention window keeps its metadata point
(given the store's unique point keys), and the sweep never removes any
chunk point at all. -/
theorem C2_amended_access_is_noop_survival_by_stored_time :
    (∀ (d : String) (st : Store), recordDocumentAccess d st = (st, true))
    ∧ (∀ (a : Option String) (q d : String) (pts : List SPoint) (pf : Bool)
        (gen : String → String) (st : Store),
        (generateResponse a q d pts pf gen st).1 = st)
    ∧ (∀ (now : Nat) (st : Store) (m : MetaPoint),
        (st.metadata.map fun q => q.id).Nodup →
        m ∈ st.metadata.take 100 →
        now - m.lastAccessed ≤ oneDayMs →
        m ∈ (cleanupVectorDb now st).1.metadata
        ∧ (cleanupVectorDb now st).1.vectors = st.vectors) := by
  refine ⟨fun d st => rfl, ?_, ?_⟩
  · intro a q d pts pf gen st
    unfold generateResponse recordDocumentAccess
    cases generateResponseInner a q d pts pf gen <;> rfl
  · intro now st m hnodup hmem hfresh
    constructor
    · refine cleanup_foldl_mem now m (st.metadata.take 100) (st, [])
        (List.mem_of_mem_take hmem) ?_
      intro p hp hid hstale
      have hpm : p = m :=
        List.inj_on_of_nodup_map hnodup (List.mem_of_mem_take hp)
          (List.mem_of_mem_take hmem) hid
      rw [hpm] at hstale
      omega
    · exact cleanup_foldl_vectors now (st.metadata.take 100) (st, [])

/-- Store with one fresh document for the C2 amended witness. -/
def c2FreshStore : Store :=
  ⟨[⟨1, [0], "chunk text", "doc-uuid", 0, "doc-uuid_0"⟩],
   [⟨5, some "doc-uuid", 100, "h", "f.pdf", "pdf", 100⟩]⟩

/-- C2 amended witness: at a concrete store whose document was stored as
accessed at time 100, a sweep at time 100 keeps its metadata point and
all chunks. -/
theorem C2_amended_witness :
    (c2FreshStore.metadata.map fun q => q.id).Nodup
    ∧ (⟨5, some "doc-uuid", 100, "h", "f.pdf", "pdf", 100⟩ : MetaPoint) ∈ c2FreshStore.metadata.take 100
    ∧ 100 - (100 : Nat) ≤ oneDayMs
    ∧ ((⟨5, some "doc-uuid", 100, "h", "f.pdf", "pdf", 100⟩ : MetaPoint)
        ∈ (cleanupVectorDb 100 c2FreshStore).1.metadata
      ∧ (cleanupVectorDb 100 c2FreshStore).1.vectors = c2FreshStore.vectors) := by
  refine ⟨by decide, by decide, by decide, ?_⟩
  exact C2_amended_access_is_noop_survival_by_stored_time.2.2 100 c2FreshStore
    ⟨5, some "doc-uuid", 100, "h", "f.pdf", "pdf", 100⟩
    (by decide) (by decide) (by decide)

/-! ## Duplicate resolver lemmas -/

/-- C9: `checkDuplicateFile` is a total function — it returns a value
for every combination of filename, (possibly missing) apiKey and
collaborator outcomes; a failing collection bootstrap or metadata scan
yields `none` (null, "no duplicate"), and when both succeed it returns
exactly the first scanned match's originalId (falling back to the
numeric point id). -/
theorem C9_duplicate_check_total_errors_yield_none
    (f : String) (a : Option String) (sha : String → String)
    (ensureRes : Except Err Unit) (scrollRes : Except Err (List MetaPoint)) :
    (∀ e, ensureRes = .error e →
      checkDuplicateFile f a sha ensureRes scrollRes = none)
    ∧ (∀ e, scrollRes = .error e →
      checkDuplicateFile f a sha ensureRes scrollRes = none)
    ∧ (∀ pts, ensureRes = .ok () → scrollRes = .ok pts →
      checkDuplicateFile f a sha ensureRes scrollRes =
        ((pts.take 100).find? (matchingDup (sha (a.getD "")) f)).map
          fun p => match p.originalId with
                   | some s => DocRef.str s
                   | none => DocRef.num p.id) := by
  refine ⟨?_, ?_, ?_⟩
  · intro e he
    rw [he]
    rfl
  · intro e he
    cases ensureRes with
    | error e2 => rfl
    | ok u => rw [he]; rfl
  · intro pts hok hscroll
    rw [hok, hscroll]
    unfold checkDuplicateFile
    cases hfind : (pts.take 100).find? (matchingDup (sha (a.getD "")) f) <;>
      simp [hfind]

/-- C9 witness: both a failing scroll (result null) and a successful
scan with one matching record (result: that record's originalId),
discharged concretely. -/
theorem C9_witness :
    ((.error ⟨"boom", none⟩ : Except Err (List MetaPoint)) = .error ⟨"boom", none⟩ →
      checkDuplicateFile "f.pdf" none (fun s => s) (.ok ())
        (.error ⟨"boom", none⟩) = none)
    ∧ checkDuplicateFile "f.pdf" none (fun s => s) (.ok ())
        (.error ⟨"boom", none⟩) = none
    ∧ checkDuplicateFile "f.pdf" (some "k") (fun s => s) (.ok ())
        (.ok [⟨7, some "doc-uuid", 0, "k", "f.pdf", "pdf", 0⟩]) = some (.str "doc-uuid") := by
  have h1 := (C9_duplicate_check_total_errors_yield_none "f.pdf" none (fun s => s)
    (.ok ()) (.error ⟨"boom", none⟩)).2.1 ⟨"boom", none⟩ rfl
  have h2 := (C9_duplicate_check_total_errors_yield_none "f.pdf" (some "k") (fun s => s)
    (.ok ()) (.ok [⟨7, some "doc-uuid", 0, "k", "f.pdf", "pdf", 0⟩])).2.2
    [⟨7, some "doc-uuid", 0, "k", "f.pdf", "pdf", 0⟩] rfl rfl
  refine ⟨fun _ => h1, h1, ?_⟩
  rw [h2]
  decide

/-! ## Deletion frame lemmas (claim C10) -/

/-- C10: `deleteDocument` removes from the chunk collection only scanned
points whose payload documentId equals the argument — every chunk point
of any other document survives (given unique point keys), and every
scanned matching chunk point is removed; in the metadata collection only
the point with the derived numeric key (primary path) or the scanned
points whose payload originalId equals the argument (fallback path) are
removed, and — provided no other document's derived key collides with
the argument's — every other document's metadata point survives.  The
call reports success. -/
theorem C10_delete_frame_effect (documentId : String) (mdf : Bool) (st : Store)
    (hdoc : documentId ≠ "")
    (hnodupV : (st.vectors.map fun p => p.id).Nodup)
    (hnodupM : (st.metadata.map fun m => m.id).Nodup)
    (hnocoll : ∀ m ∈ st.metadata, m.originalId ≠ some documentId →
      m.id ≠ deriveMetadataId documentId) :
    (∀ p ∈ st.vectors, p.documentId ≠ documentId →
      p ∈ (deleteDocument documentId mdf st).1.vectors)
    ∧ (∀ p ∈ st.vectors.take 1000, p.documentId = documentId →
      p ∉ (deleteDocument documentId mdf st).1.vectors)
    ∧ (∀ m ∈ st.metadata, m.originalId ≠ some documentId →
      m ∈ (deleteDocument documentId mdf st).1.metadata)
    ∧ (mdf = false → ∀ m ∈ st.metadata, m.id = deriveMetadataId documentId →
      m ∉ (deleteDocument documentId mdf st).1.metadata)
    ∧ (mdf = true → ∀ m ∈ st.metadata.take 100, m.originalId = some documentId →
      m ∉ (deleteDocument documentId mdf st).1.metadata)
    ∧ (deleteDocument documentId mdf st).2 = .ok true := by
  have hvec : (deleteDocument documentId mdf st).1.vectors =
      if (chunksToDelete documentId st).isEmpty then st.vectors
      else deleteChunksByIds st.vectors (chunksToDelete documentId st) := by
    simp [deleteDocument, hdoc]
  have hmeta : (deleteDocument documentId mdf st).1.metadata =
      if mdf then
        if (metaToDelete documentId st).isEmpty then st.metadata
        else deleteMetaByIds st.metadata (metaToDelete documentId st)
      else deleteMetaByIds st.metadata [deriveMetadataId documentId] := by
    simp [deleteDocument, hdoc]
  refine ⟨?_, ?_, ?_, ?_, ?_, by simp [deleteDocument, hdoc]⟩
  · intro p hp hne
    rw [hvec]
    by_cases he : (chunksToDelete documentId st).isEmpty
    · rw [if_pos he]
      exact hp
    · rw [if_neg he]
      refine List.mem_filter.mpr ⟨hp, ?_⟩
      rw [decide_eq_true_eq]
      intro hin
      rcases List.mem_map.mp hin with ⟨q, hqf, hqid⟩
      rcases List.mem_filter.mp hqf with ⟨hqtake, hqdoc⟩
      have hq : q ∈ st.vectors := List.mem_of_mem_take hqtake
      have hqp : q = p := List.inj_on_of_nodup_map hnodupV hq hp hqid
      rw [hqp] at hqdoc
      exact hne (by simpa using hqdoc)
  · intro p hp hpd
    rw [hvec]
    have hin : p.id ∈ chunksToDelete documentId st := by
      refine List.mem_map.mpr ⟨p, ?_, rfl⟩
      exact List.mem_filter.mpr ⟨hp, by simp [hpd]⟩
    have hne2 : ¬((chunksToDelete documentId st).isEmpty = true) := by
      simp only [List.isEmpty_iff]
      exact List.ne_nil_of_mem hin
    rw [if_neg hne2]
    intro hc
    rcases List.mem_filter.mp hc with ⟨_, hdec⟩
    rw [decide_eq_true_eq] at hdec
    exact hdec hin
  · intro m hm hne
    rw [hmeta]
    cases mdf with
    | false =>
      rw [if_neg (by simp)]
      refine List.mem_filter.mpr ⟨hm, ?_⟩
      rw [decide_eq_true_eq]
      simp only [List.mem_singleton]
      exact hnocoll m hm hne
    | true =>
      rw [if_pos rfl]
      by_cases he : (metaToDelete documentId st).isEmpty
      · rw [if_pos he]
        exact hm
      · rw [if_neg he]
        refine List.mem_filter.mpr ⟨hm, ?_⟩
        rw [decide_eq_true_eq]
        intro hin
        rcases List.mem_map.mp hin with ⟨q, hqf, hqid⟩
        rcases List.mem_filter.mp hqf with ⟨hqtake, hqorig⟩
        have hq : q ∈ st.metadata := List.mem_of_mem_take hqtake
        have hqm : q = m := List.inj_on_of_nodup_map hnodupM hq hm hqid
        rw [hqm] at hqorig
        exact hne (by simpa using hqorig)
  · intro hmdf m hm hid
    subst hmdf
    rw [hmeta, if_neg (by simp)]
    intro hc
    rcases List.mem_filter.mp hc with ⟨_, hdec⟩
    rw [decide_eq_true_eq] at hdec
    exact hdec (by simp [hid])
  · intro hmdf m hm hmorig
    subst hmdf
    rw [hmeta, if_pos rfl]
    have hin : m.id ∈ metaToDelete documentId st := by
      refine List.mem_map.mpr ⟨m, ?_, rfl⟩
      exact List.mem_filter.mpr ⟨hm, by simp [hmorig]⟩
    have hne2 : ¬((metaToDelete documentId st).isEmpty = true) := by
      simp only [List.isEmpty_iff]
      exact List.ne_nil_of_mem hin
    rw [if_neg hne2]
    intro hc
    rcases List.mem_filter.mp hc with ⟨_, hdec⟩
    rw [decide_eq_true_eq] at hdec
    exact hdec hin

/-- A two-document store for the C10 witness; metadata keys are the
actual derived MD5 keys. -/
def c10Store : Store :=
  ⟨[⟨1, [0], "tA", "docA", 0, "docA_0"⟩, ⟨2, [0], "tB", "docB", 0, "docB_0"⟩],
   [⟨deriveMetadataId "docA", some "docA", 0, "h", "a.pdf", "pdf", 0⟩,
    ⟨deriveMetadataId "docB", some "docB", 0, "h", "b.pdf", "pdf", 0⟩]⟩

/-- C10 witness: deleting "docA" keeps docB's chunk and metadata and
removes docA's scanned chunk. -/
theorem C10_witness :
    ("docA" : String) ≠ ""
    ∧ (c10Store.vectors.map fun p => p.id).Nodup
    ∧ (c10Store.metadata.map fun m => m.id).Nodup
    ∧ (⟨2, [0], "tB", "docB", 0, "docB_0"⟩ : ChunkPoint)
        ∈ (deleteDocument "docA" false c10Store).1.vectors
    ∧ (⟨1, [0], "tA", "docA", 0, "docA_0"⟩ : ChunkPoint)
        ∉ (deleteDocument "docA" false c10Store).1.vectors
    ∧ (⟨deriveMetadataId "docB", some "docB", 0, "h", "b.pdf", "pdf", 0⟩ : MetaPoint)
        ∈ (deleteDocument "docA" false c10Store).1.metadata := by
  have h := C10_delete_frame_effect "docA" false c10Store (by decide) (by decide)
    (by decide) (by decide)
  refine ⟨by decide, by decide, by decide, ?_, ?_, ?_⟩
  · exact h.1 _ (by decide) (by decide)
  · exact h.2.1 _ (by decide) (by decide)
  · exact h.2.2.1 _ (by decide) (by decide)

/-! ## Ingestion-loop lemmas (claim C8) -/

theorem ingestBatches_zero (embed : List String → Except Err (List (List Int)))
    (docId : String) (rest : List String) (base : Nat) (st : Store) :
    ingestBatches embed docId 0 rest base st = (st, none) := rfl

theorem ingestBatches_succ (embed : List String → Except Err (List (List Int)))
    (docId : String) (f : Nat) (rest : List String) (base : Nat) (st : Store) :
    ingestBatches embed docId (f + 1) rest base st =
      if rest.isEmpty then (st, none)
      else
        match embed (rest.take 5) with
        | .error e => (st, some e)
        | .ok vecs =>
          ingestBatches embed docId f (rest.drop 5) (base + 5)
            ⟨upsertChunks st.vectors (buildPoints docId base (rest.take 5) vecs),
             st.metadata⟩ := rfl

theorem mem_upsertChunk_self (l : List ChunkPoint) (p : ChunkPoint) :
    p ∈ upsertChunk l p := by
  cases hany : l.any fun q => q.id == p.id
  · rw [upsertChunk_neg l p hany]
    simp
  · rw [upsertChunk_pos l p hany]
    rcases List.any_eq_true.mp hany with ⟨q, hq, hqid⟩
    refine List.mem_map.mpr ⟨q, hq, ?_⟩
    simp [hqid]

theorem mem_upsertChunk_of_ne (l : List ChunkPoint) (p q : ChunkPoint)
    (hp : p ∈ l) (hne : q.id ≠ p.id) : p ∈ upsertChunk l q := by
  cases hany : l.any fun r => r.id == q.id
  · rw [upsertChunk_neg l q hany]
    exact List.mem_append_left _ hp
  · rw [upsertChunk_pos l q hany]
    refine List.mem_map.mpr ⟨p, hp, ?_⟩
    have hne2 : (p.id == q.id) = false := by
      rw [beq_eq_false_iff_ne]
      exact fun h => hne h.symm
    simp [hne2]

theorem mem_upsertChunks_of_ne (ps : List ChunkPoint) :
    ∀ (l : List ChunkPoint) (p : ChunkPoint), p ∈ l →
      (∀ q ∈ ps, q.id ≠ p.id) → p ∈ upsertChunks l ps := by
  induction ps with
  | nil =>
    intro l p hp _
    exact hp
  | cons q rest ih =>
    intro l p hp hne
    exact ih (upsertChunk l q) p
      (mem_upsertChunk_of_ne l p q hp (hne q (List.mem_cons_self q rest)))
      fun r hr => hne r (List.mem_cons_of_mem q hr)

theorem mem_upsertChunks_self (ps : List ChunkPoint) :
    ∀ (l : List ChunkPoint) (p : ChunkPoint), p ∈ ps →
      ps.Pairwise (fun a b => a.id ≠ b.id) → p ∈ upsertChunks l ps := by
  induction ps with
  | nil =>
    intro l p hp _
    cases hp
  | cons q rest ih =>
    intro l p hp hpair
    rcases List.mem_cons.mp hp with rfl | hprest
    · have hhead := (List.pairwise_cons.mp hpair).1
      exact mem_upsertChunks_of_ne rest (upsertChunk l p) p (mem_upsertChunk_self l p)
        fun r hr h => hhead r hr h.symm
    · exact ih (upsertChunk l q) p hprest (List.pairwise_cons.mp hpair).2

theorem mem_upsertMeta_self (l : List MetaPoint) (m : MetaPoint) :
    m ∈ upsertMeta l m := by
  cases hany : l.any fun q => q.id == m.id
  · have : upsertMeta l m = l ++ [m] := by simp [upsertMeta, hany]
    rw [this]
    simp
  · have : upsertMeta l m = l.map fun q => if q.id == m.id then m else q := by
      simp [upsertMeta, hany]
    rw [this]
    rcases List.any_eq_true.mp hany with ⟨q, hq, hqid⟩
    refine List.mem_map.mpr ⟨q, hq, ?_⟩
    simp [hqid]

theorem buildPoints_nil (docId : String) (base : Nat) (vs : List (List Int)) :
    buildPoints docId base [] vs = [] := by
  cases vs <;> rfl

theorem mkChunkPoint_id (d : String) (i : Nat) (t : String) (v : List Int) :
    (mkChunkPoint d i t v).id = derivePointId d i := by
  simp only [mkChunkPoint]

theorem buildPoints_id_mem (docId : String) :
    ∀ (ts : List String) (vs : List (List Int)) (base : Nat) (p : ChunkPoint),
      p ∈ buildPoints docId base ts vs →
      ∃ m, m < ts.length ∧ p.id = derivePointId docId (base + m) := by
  intro ts
  induction ts with
  | nil =>
    intro vs base p hp
    rw [buildPoints_nil] at hp
    cases hp
  | cons t ts ih =>
    intro vs base p hp
    cases vs with
    | nil => cases hp
    | cons v vs =>
      rcases List.mem_cons.mp hp with rfl | hrest
      · exact ⟨0, by simp, by simp [mkChunkPoint]⟩
      · rcases ih vs (base + 1) p hrest with ⟨m, hm, hid⟩
        refine ⟨m + 1, by simp only [List.length_cons]; omega, ?_⟩
        rw [hid]
        congr 1
        omega

theorem buildPoints_pairwise_ids (docId : String) (total : Nat)
    (hinj : ∀ a b, a < total → b < total → a ≠ b →
      derivePointId docId a ≠ derivePointId docId b) :
    ∀ (ts : List String) (vs : List (List Int)) (base : Nat),
      base + ts.length ≤ total →
      (buildPoints docId base ts vs).Pairwise fun a b => a.id ≠ b.id := by
  intro ts
  induction ts with
  | nil =>
    intro vs base _
    rw [buildPoints_nil]
    exact List.Pairwise.nil
  | cons t ts ih =>
    intro vs base hrange
    cases vs with
    | nil => exact List.Pairwise.nil
    | cons v vs =>
      simp only [List.length_cons] at hrange
      refine List.pairwise_cons.mpr ⟨?_, ih vs (base + 1) (by omega)⟩
      intro b hb
      rcases buildPoints_id_mem docId ts vs (base + 1) b hb with ⟨m, hm, hid⟩
      show (mkChunkPoint docId base t v).id ≠ b.id
      rw [mkChunkPoint_id, hid]
      exact hinj base (base + 1 + m) (by omega) (by omega) (by omega)

theorem ingestBatches_metadata (embed : List String → Except Err (List (List Int)))
    (docId : String) :
    ∀ (fuel : Nat) (rest : List String) (base : Nat) (st : Store),
      (ingestBatches embed docId fuel rest base st).1.metadata = st.metadata := by
  intro fuel
  induction fuel with
  | zero =>
    intro rest base st
    rfl
  | succ f ih =>
    intro rest base st
    rw [ingestBatches_succ]
    cases rest with
    | nil => rfl
    | cons r rs =>
      rw [if_neg (by simp)]
      cases hemb : embed ((r :: rs).take 5) with
      | error e => rfl
      | ok vecs => exact ih ((r :: rs).drop 5) (base + 5) _

theorem ingestBatches_preserve (embed : List String → Except Err (List (List Int)))
    (docId : String) :
    ∀ (fuel : Nat) (rest : List String) (base : Nat) (st : Store) (p : ChunkPoint),
      p ∈ st.vectors →
      (∀ m, m < rest.length → derivePointId docId (base + m) ≠ p.id) →
      p ∈ (ingestBatches embed docId fuel rest base st).1.vectors := by
  intro fuel
  induction fuel with
  | zero =>
    intro rest base st p hp _
    exact hp
  | succ f ih =>
    intro rest base st p hp hne
    rw [ingestBatches_succ]
    cases rest with
    | nil => exact hp
    | cons r rs =>
      rw [if_neg (by simp)]
      cases hemb : embed ((r :: rs).take 5) with
      | error e => exact hp
      | ok vecs =>
        refine ih ((r :: rs).drop 5) (base + 5) _ p ?_ ?_
        · refine mem_upsertChunks_of_ne _ st.vectors p hp ?_
          intro q hq
          rcases buildPoints_id_mem docId ((r :: rs).take 5) vecs base q hq with ⟨m, hm, hid⟩
          rw [hid]
          have hmlen : m < (r :: rs).length := by
            have := List.length_take 5 (r :: rs)
            omega
          exact hne m hmlen
        · intro m hm
          have hlen : ((r :: rs).drop 5).length = (r :: rs).length - 5 :=
            List.length_drop 5 (r :: rs)
          have heq : base + 5 + m = base + (5 + m) := by omega
          rw [heq]
          exact hne (5 + m) (by omega)

theorem ingestBatches_batch_persist (embed : List String → Except Err (List (List Int)))
    (docId : String) (total : Nat)
    (hinj : ∀ a b, a < total → b < total → a ≠ b →
      derivePointId docId a ≠ derivePointId docId b) :
    ∀ (j fuel : Nat) (rest : List String) (base : Nat) (st : Store),
      rest.length ≤ fuel →
      base + rest.length ≤ total →
      (∀ i, i ≤ j → ∃ v, embed ((rest.drop (5 * i)).take 5) = .ok v) →
      ∀ vecs, embed ((rest.drop (5 * j)).take 5) = .ok vecs →
      ∀ p ∈ buildPoints docId (base + 5 * j) ((rest.drop (5 * j)).take 5) vecs,
        p ∈ (ingestBatches embed docId fuel rest base st).1.vectors := by
  intro j
  induction j with
  | zero =>
    intro fuel rest base st hfuel hrange hok vecs hj p hp
    simp only [Nat.mul_zero, List.drop_zero] at hj
    simp only [Nat.mul_zero, List.drop_zero, Nat.add_zero] at hp
    cases rest with
    | nil =>
      rw [List.take_nil, buildPoints_nil] at hp
      cases hp
    | cons r rs =>
      cases fuel with
      | zero =>
        exfalso
        simp only [List.length_cons] at hfuel
        omega
      | succ f =>
        rw [ingestBatches_succ, if_neg (by simp), hj]
        show p ∈ (ingestBatches embed docId f ((r :: rs).drop 5) (base + 5)
          ⟨upsertChunks st.vectors (buildPoints docId base ((r :: rs).take 5) vecs),
           st.metadata⟩).1.vectors
        have htk : ((r :: rs).take 5).length = min 5 (r :: rs).length :=
          List.length_take 5 (r :: rs)
        have hdr : ((r :: rs).drop 5).length = (r :: rs).length - 5 :=
          List.length_drop 5 (r :: rs)
        refine ingestBatches_preserve embed docId f ((r :: rs).drop 5) (base + 5) _ p ?_ ?_
        · show p ∈ upsertChunks st.vectors (buildPoints docId base ((r :: rs).take 5) vecs)
          refine mem_upsertChunks_self _ st.vectors p hp ?_
          exact buildPoints_pairwise_ids docId total hinj ((r :: rs).take 5) vecs base
            (by omega)
        · intro m hm
          rcases buildPoints_id_mem docId ((r :: rs).take 5) vecs base p hp with
            ⟨mp, hmp, hpid⟩
          rw [hpid]
          exact hinj (base + 5 + m) (base + mp) (by omega) (by omega) (by omega)
  | succ j ih =>
    intro fuel rest base st hfuel hrange hok vecs hj p hp
    cases rest with
    | nil =>
      rw [List.drop_nil, List.take_nil, buildPoints_nil] at hp
      cases hp
    | cons r rs =>
      by_cases hnil : (r :: rs).drop (5 * (j + 1)) = []
      · rw [hnil, List.take_nil, buildPoints_nil] at hp
        cases hp
      · have hlong : 5 * (j + 1) < (r :: rs).length := by
          by_contra hc
          exact hnil (List.drop_eq_nil_of_le (by omega))
        cases fuel with
        | zero =>
          exfalso
          simp only [List.length_cons] at hfuel
          omega
        | succ f =>
          rcases hok 0 (by omega) with ⟨v0, hv0⟩
          simp only [Nat.mul_zero, List.drop_zero] at hv0
          rw [ingestBatches_succ, if_neg (by simp), hv0]
          show p ∈ (ingestBatches embed docId f ((r :: rs).drop 5) (base + 5)
            ⟨upsertChunks st.vectors (buildPoints docId base ((r :: rs).take 5) v0),
             st.metadata⟩).1.vectors
          have hdrop : ∀ i : Nat,
              ((r :: rs).drop 5).drop (5 * i) = (r :: rs).drop (5 * (i + 1)) := by
            intro i
            rw [List.drop_drop]
            congr 1
            omega
          have hlen5 : ((r :: rs).drop 5).length = (r :: rs).length - 5 :=
            List.length_drop 5 (r :: rs)
          have hidx : base + 5 * (j + 1) = base + 5 + 5 * j := by omega
          rw [hidx, ← hdrop j] at hp
          rw [← hdrop j] at hj
          refine ih f ((r :: rs).drop 5) (base + 5) _ ?_ ?_ ?_ vecs hj p hp
          · rw [hlen5]
            omega
          · rw [hlen5]
            omega
          · intro i hi
            rcases hok (i + 1) (by omega) with ⟨v, hv⟩
            rw [← hdrop i] at hv
            exact ⟨v, hv⟩

theorem ingestBatches_first_error (embed : List String → Except Err (List (List Int)))
    (docId : String) :
    ∀ (j fuel : Nat) (rest : List String) (base : Nat) (st : Store),
      rest.length ≤ fuel →
      (∀ i, i < j → ∃ v, embed ((rest.drop (5 * i)).take 5) = .ok v) →
      rest.drop (5 * j) ≠ [] →
      (∃ e, embed ((rest.drop (5 * j)).take 5) = .error e) →
      ∃ e, (ingestBatches embed docId fuel rest base st).2 = some e := by
  intro j
  induction j with
  | zero =>
    intro fuel rest base st hfuel hpre hne herr
    rcases herr with ⟨e, he⟩
    simp only [Nat.mul_zero, List.drop_zero] at hne he
    cases rest with
    | nil => exact absurd rfl hne
    | cons r rs =>
      cases fuel with
      | zero =>
        exfalso
        simp only [List.length_cons] at hfuel
        omega
      | succ f =>
        rw [ingestBatches_succ, if_neg (by simp), he]
        exact ⟨e, rfl⟩
  | succ j ih =>
    intro fuel rest base st hfuel hpre hne herr
    cases rest with
    | nil =>
      rw [List.drop_nil] at hne
      exact absurd rfl hne
    | cons r rs =>
      cases fuel with
      | zero =>
        exfalso
        simp only [List.length_cons] at hfuel
        omega
      | succ f =>
        rcases hpre 0 (by omega) with ⟨v0, hv0⟩
        simp only [Nat.mul_zero, List.drop_zero] at hv0
        rw [ingestBatches_succ, if_neg (by simp), hv0]
        show ∃ e, (ingestBatches embed docId f ((r :: rs).drop 5) (base + 5)
          ⟨upsertChunks st.vectors (buildPoints docId base ((r :: rs).take 5) v0),
           st.metadata⟩).2 = some e
        have hdrop : ∀ i : Nat,
            ((r :: rs).drop 5).drop (5 * i) = (r :: rs).drop (5 * (i + 1)) := by
          intro i
          rw [List.drop_drop]
          congr 1
          omega
        refine ih f ((r :: rs).drop 5) (base + 5) _ ?_ ?_ ?_ ?_
        · rw [List.length_drop]
          simp only [List.length_cons] at hfuel ⊢
          omega
        · intro i hi
          rcases hpre (i + 1) (by omega) with ⟨v, hv⟩
          rw [← hdrop i] at hv
          exact ⟨v, hv⟩
        · rw [hdrop j]
          exact hne
        · rcases herr with ⟨e, he⟩
          rw [← hdrop j] at he
          exact ⟨e, he⟩

theorem processDocument_empty (key : String) (docs : List String)
    (fname ftype docId : String) (embed : List String → Except Err (List (List Int)))
    (sha : String → String) (now : Nat) (st : Store) (hd : docs.length = 0) :
    processDocument (some key) docs fname ftype docId embed sha now st =
      (st, .error ⟨"No content extracted from document", some "EMPTY_CONTENT"⟩) := by
  simp [processDocument, hd]

theorem processDocument_err (key : String) (docs : List String)
    (fname ftype docId : String) (embed : List String → Except Err (List (List Int)))
    (sha : String → String) (now : Nat) (st : Store) (hd : ¬ docs.length = 0) (e : Err)
    (hrun : (ingestBatches embed docId (splitAll docs).length (splitAll docs) 0 st).2
      = some e) :
    processDocument (some key) docs fname ftype docId embed sha now st =
      ((ingestBatches embed docId (splitAll docs).length (splitAll docs) 0 st).1,
       .error ⟨"Failed to create vector embeddings", some "VECTOR_CREATION_FAILED"⟩) := by
  simp [processDocument, hd, hrun]

theorem processDocument_ok (key : String) (docs : List String)
    (fname ftype docId : String) (embed : List String → Except Err (List (List Int)))
    (sha : String → String) (now : Nat) (st : Store) (hd : ¬ docs.length = 0)
    (hrun : (ingestBatches embed docId (splitAll docs).length (splitAll docs) 0 st).2
      = none) :
    processDocument (some key) docs fname ftype docId embed sha now st =
      (⟨(ingestBatches embed docId (splitAll docs).length (splitAll docs) 0 st).1.vectors,
        upsertMeta
          (ingestBatches embed docId (splitAll docs).length (splitAll docs) 0 st).1.metadata
          ⟨deriveMetadataId docId, some docId, now, sha key, fname, ftype, now⟩⟩,
       .ok docId) := by
  simp [processDocument, hd, hrun]

/-- C8: the single metadata record is committed only after all batches
succeed.  (1) Whenever `processDocument` throws, the metadata collection
is exactly as before the call — no metadata record is written for the
documentId.  (2) On success the metadata record (derived key, originalId,
uploadedAt = lastAccessed = now) has been upserted.  (3) The points of
every batch whose own and preceding embeddings succeed are present in
the final chunk collection even if a later batch fails — earlier batches
are never rolled back (given collision-free derived ids over this
document's chunk indices).  (4) If some batch fails after a run of
successful ones, `processDocument` returns an error carrying the code
`VECTOR_CREATION_FAILED`. -/
theorem C8_metadata_committed_only_after_batches
    (key fname ftype docId : String) (docs : List String)
    (embed : List String → Except Err (List (List Int)))
    (sha : String → String) (now : Nat) (st : Store) :
    (∀ e, (processDocument (some key) docs fname ftype docId embed sha now st).2 = .error e →
      (processDocument (some key) docs fname ftype docId embed sha now st).1.metadata
        = st.metadata)
    ∧ ((processDocument (some key) docs fname ftype docId embed sha now st).2 = .ok docId →
      (⟨deriveMetadataId docId, some docId, now, sha key, fname, ftype, now⟩ : MetaPoint)
        ∈ (processDocument (some key) docs fname ftype docId embed sha now st).1.metadata)
    ∧ (¬ docs.length = 0 →
      (∀ a b, a < (splitAll docs).length → b < (splitAll docs).length → a ≠ b →
        derivePointId docId a ≠ derivePointId docId b) →
      ∀ j, (∀ i, i ≤ j → ∃ v, embed (((splitAll docs).drop (5 * i)).take 5) = .ok v) →
      ∀ vecs, embed (((splitAll docs).drop (5 * j)).take 5) = .ok vecs →
      ∀ p ∈ buildPoints docId (5 * j) (((splitAll docs).drop (5 * j)).take 5) vecs,
        p ∈ (processDocument (some key) docs fname ftype docId embed sha now st).1.vectors)
    ∧ (¬ docs.length = 0 →
      (∃ j, (∀ i, i < j → ∃ v, embed (((splitAll docs).drop (5 * i)).take 5) = .ok v)
        ∧ (splitAll docs).drop (5 * j) ≠ []
        ∧ ∃ e, embed (((splitAll docs).drop (5 * j)).take 5) = .error e) →
      ∃ e2, (processDocument (some key) docs fname ftype docId embed sha now st).2
          = .error e2
        ∧ e2.code = some "VECTOR_CREATION_FAILED") := by
  refine ⟨?_, ?_, ?_, ?_⟩
  · intro e he
    by_cases hd : docs.length = 0
    · rw [processDocument_empty key docs fname ftype docId embed sha now st hd]
    · cases hrun : (ingestBatches embed docId (splitAll docs).length (splitAll docs) 0 st).2 with
      | none =>
        rw [processDocument_ok key docs fname ftype docId embed sha now st hd hrun] at he
        exact absurd he (by simp)
      | some e2 =>
        rw [processDocument_err key docs fname ftype docId embed sha now st hd e2 hrun]
        exact ingestBatches_metadata embed docId (splitAll docs).length (splitAll docs) 0 st
  · intro hok
    by_cases hd : docs.length = 0
    · rw [processDocument_empty key docs fname ftype docId embed sha now st hd] at hok
      exact absurd hok (by simp)
    · cases hrun : (ingestBatches embed docId (splitAll docs).length (splitAll docs) 0 st).2 with
      | some e2 =>
        rw [processDocument_err key docs fname ftype docId embed sha now st hd e2 hrun] at hok
        exact absurd hok (by simp)
      | none =>
        rw [processDocument_ok key docs fname ftype docId embed sha now st hd hrun]
        exact mem_upsertMeta_self _ _
  · intro hd hinj j hok vecs hj p hp
    have hmem : p ∈ (ingestBatches embed docId (splitAll docs).length
        (splitAll docs) 0 st).1.vectors := by
      refine ingestBatches_batch_persist embed docId (splitAll docs).length hinj j
        (splitAll docs).length (splitAll docs) 0 st (le_refl _) (by omega) hok vecs hj p ?_
      simpa using hp
    cases hrun : (ingestBatches embed docId (splitAll docs).length (splitAll docs) 0 st).2 with
    | some e2 =>
      rw [processDocument_err key docs fname ftype docId embed sha now st hd e2 hrun]
      exact hmem
    | none =>
      rw [processDocument_ok key docs fname ftype docId embed sha now st hd hrun]
      exact hmem
  · intro hd hex
    rcases hex with ⟨j, hpre, hne, herr⟩
    rcases ingestBatches_first_error embed docId j (splitAll docs).length (splitAll docs)
      0 st (le_refl _) hpre hne herr with ⟨e, he⟩
    refine ⟨⟨"Failed to create vector embeddings", some "VECTOR_CREATION_FAILED"⟩, ?_, rfl⟩
    rw [processDocument_err key docs fname ftype docId embed sha now st hd e he]

/-- An embedding collaborator that always fails. -/
def c8EmbedFail : List String → Except Err (List (List Int)) :=
  fun _ => .error ⟨"boom", none⟩

/-- An embedding collaborator that always succeeds with dummy vectors. -/
def c8EmbedOk : List String → Except Err (List (List Int)) :=
  fun ts => .ok (ts.map fun _ => [0])

/-- C8 witness: on a one-chunk document, a failing first batch makes
`processDocument` return a `VECTOR_CREATION_FAILED` error, and a fully
successful run returns the documentId with the metadata record present. -/
theorem C8_witness :
    ¬ (["hello"] : List String).length = 0
    ∧ (splitAll ["hello"]).drop (5 * 0) ≠ []
    ∧ (∃ e2, (processDocument (some "k") ["hello"] "f.pdf" "pdf" "doc-1" c8EmbedFail
          (fun s => s) 7 ⟨[], []⟩).2 = .error e2
        ∧ e2.code = some "VECTOR_CREATION_FAILED")
    ∧ ((processDocument (some "k") ["hello"] "f.pdf" "pdf" "doc-1" c8EmbedOk
          (fun s => s) 7 ⟨[], []⟩).2 = .ok "doc-1"
      ∧ (⟨deriveMetadataId "doc-1", some "doc-1", 7, "k", "f.pdf", "pdf", 7⟩ : MetaPoint)
          ∈ (processDocument (some "k") ["hello"] "f.pdf" "pdf" "doc-1" c8EmbedOk
              (fun s => s) 7 ⟨[], []⟩).1.metadata) := by
  have h1 := C8_metadata_committed_only_after_batches "k" "f.pdf" "pdf" "doc-1" ["hello"]
    c8EmbedFail (fun s => s) 7 ⟨[], []⟩
  have h2 := C8_metadata_committed_only_after_batches "k" "f.pdf" "pdf" "doc-1" ["hello"]
    c8EmbedOk (fun s => s) 7 ⟨[], []⟩
  have hok : (processDocument (some "k") ["hello"] "f.pdf" "pdf" "doc-1" c8EmbedOk
      (fun s => s) 7 ⟨[], []⟩).2 = .ok "doc-1" := rfl
  refine ⟨by decide, by decide, ?_, hok, h2.2.1 hok⟩
  exact h1.2.2.2 (by decide)
    ⟨0, fun i hi => absurd hi (by omega), by decide, ⟨"boom", none⟩, rfl⟩
